import Mathlib

/-!
Shallow embedding of `Personal_Finance_Tracker.py` (class
`PersonalFinanceTracker`) and proofs of the spec's claims about it.

Modelling conventions:
* The dataframe `self.df` is a `Tracker`: its rows in order (one
  `Transaction` per row, the dataframe's default integer index being the
  list position, since every concat uses `ignore_index=True`), plus a flag
  recording whether the derived `Month` column is currently part of the
  frame (lines 79, 85 and 156 assign it onto `self.df`).
* Monetary amounts are embedded as exact rationals `ℚ` — the finite values
  that Python floats denote.  Binary floating-point rounding and the
  non-finite values `inf`/`nan` are outside this embedding.
* Dates are (year, month, day) triples at day granularity; the
  `strftime('%Y-%m')` month key of a date is encoded as `year*100 + month`,
  whose numeric order coincides with the lexicographic order of the
  `"YYYY-MM"` strings for four-digit years.
* A pandas `sort_values` argsorts ascending and, for `ascending=False`,
  reverses the resulting order; on inputs of the sizes considered here the
  underlying argsort is stable, so ascending argsort is embedded as the
  (unique) sort by the lexicographic key (value, index).
-/

namespace FinanceTracker

/-- Calendar date at day granularity (a normalized pandas Timestamp). -/
structure Date where
  year : Nat
  month : Nat
  day : Nat
  deriving DecidableEq

/-- The `strftime('%Y-%m')` month key of a date, encoded numerically. -/
def Date.monthKey (d : Date) : Nat := d.year * 100 + d.month

/-- One row of the tracker's dataframe: `Date, Amount, Category, Description`. -/
structure Transaction where
  date : Date
  amount : ℚ
  category : String
  description : String
  deriving DecidableEq

/-- The fixed category list set up in `PersonalFinanceTracker.__init__`
(lines 21–24). -/
def categoriesList : List String :=
  ["Food", "Transportation", "Housing", "Entertainment",
   "Utilities", "Healthcare", "Shopping", "Education", "Other"]

/-- The tracker's in-memory state: the dataframe rows, and whether the
derived `Month` column is currently part of the frame's schema. -/
structure Tracker where
  rows : List Transaction
  hasMonthColumn : Bool
  deriving DecidableEq

/-- The fresh state `__init__` builds when no data file exists (lines
31–34): an empty frame with columns `Date, Amount, Category, Description`. -/
def initTracker : Tracker := ⟨[], false⟩

/-- Outcome of Python `float(amount)` on the `amount` argument of
`add_expense` (line 54): either it returns a finite numeric value, or it
raises `ValueError`. -/
inductive AmountInput where
  | parseable (q : ℚ)
  | unparseable
  deriving DecidableEq

/-- The `date` argument of `add_expense`: a string `pd.to_datetime`
accepts, or one it rejects (lines 41–45). -/
inductive DateInput where
  | valid (d : Date)
  | invalid
  deriving DecidableEq

/-- How a call to `add_expense` terminates at the Python level. -/
inductive PyResult where
  | retTrue
  | retFalse
  | valueError
  deriving DecidableEq

/-- Result of a call to `add_expense`: the state of `self.df` afterwards,
how the call terminated, and whether `save_data` ran (line 65). -/
structure AddOutcome where
  tracker : Tracker
  result : PyResult
  persisted : Bool
  deriving DecidableEq

/-- Date defaulting of `add_expense` (lines 38–45): a missing date and an
unparseable date string both fall back to `datetime.now()` (`today`). -/
def resolveDate (dateArg : Option DateInput) (today : Date) : Date :=
  match dateArg with
  | none => today
  | some (DateInput.valid d) => d
  | some DateInput.invalid => today

/-- `PersonalFinanceTracker.add_expense` (lines 36–67).  The date argument
is resolved first (lines 38–45); the category is checked against the fixed
list (lines 47–49, returning `False` if absent); then `float(amount)` runs
(line 54) — unparseable amounts raise an uncaught `ValueError` there; on
success the row is concatenated at the end (line 64, `ignore_index=True`),
`save_data` runs (line 65) and the call returns `True` (line 67). -/
def add_expense (t : Tracker) (amount : AmountInput) (category description : String)
    (dateArg : Option DateInput) (today : Date) : AddOutcome :=
  let date := resolveDate dateArg today
  if category ∈ categoriesList then
    match amount with
    | AmountInput.parseable q =>
        { tracker := { t with rows := t.rows ++ [⟨date, q, category, description⟩] },
          result := PyResult.retTrue, persisted := true }
    | AmountInput.unparseable =>
        { tracker := t, result := PyResult.valueError, persisted := false }
  else
    { tracker := t, result := PyResult.retFalse, persisted := false }

/-- Tracker states reachable from a fresh start (`__init__` finding no
stored data file) by any sequence of `add_expense` calls. -/
inductive Reachable : Tracker → Prop
  | init : Reachable initTracker
  | step (t : Tracker) (a : AmountInput) (c d : String) (dt : Option DateInput)
      (today : Date) : Reachable t → Reachable (add_expense t a c d dt today).tracker

/-- Sum of the `Amount` column of a list of rows (`['Amount'].sum()`). -/
def sumAmounts (l : List Transaction) : ℚ := (l.map Transaction.amount).sum

/-- The group keys a pandas `groupby('Category')` yields: the distinct
category values, ascending (`groupby` sorts its keys by default). -/
def categoryKeys (l : List Transaction) : List String :=
  List.insertionSort (fun a b => a ≤ b) ((l.map Transaction.category).dedup)

/-- The group keys a pandas `groupby('Month')` yields: the distinct month
keys, ascending. -/
def monthKeys (l : List Transaction) : List Nat :=
  List.insertionSort (fun a b => a ≤ b) ((l.map (fun tx => tx.date.monthKey)).dedup)

/-- `df.groupby('Category')['Amount'].sum()`: one entry per category
present, keys ascending, each value the sum of that category's amounts. -/
def groupbyCategorySum (l : List Transaction) : List (String × ℚ) :=
  (categoryKeys l).map (fun c => (c, sumAmounts (l.filter (fun tx => tx.category == c))))

/-- Ascending order used by `sort_values` on the category-total series:
pandas argsorts by value (stably on the inputs at hand, hence the series'
index — the ascending category names — breaks ties lexicographically). -/
def catSeriesLe (a b : String × ℚ) : Prop := a.2 < b.2 ∨ (a.2 = b.2 ∧ a.1 ≤ b.1)

instance : DecidableRel catSeriesLe := fun a b =>
  inferInstanceAs (Decidable (a.2 < b.2 ∨ (a.2 = b.2 ∧ a.1 ≤ b.1)))

instance : IsTotal (String × ℚ) catSeriesLe :=
  ⟨fun a b => by
    unfold catSeriesLe
    rcases lt_trichotomy a.2 b.2 with h | h | h
    · exact Or.inl (Or.inl h)
    · rcases le_total a.1 b.1 with hc | hc
      · exact Or.inl (Or.inr ⟨h, hc⟩)
      · exact Or.inr (Or.inr ⟨h.symm, hc⟩)
    · exact Or.inr (Or.inl h)⟩

instance : IsTrans (String × ℚ) catSeriesLe :=
  ⟨fun a b c hab hbc => by
    unfold catSeriesLe at hab hbc ⊢
    rcases hab with h1 | ⟨h1, h1'⟩
    · rcases hbc with h2 | ⟨h2, _⟩
      · exact Or.inl (h1.trans h2)
      · exact Or.inl (lt_of_lt_of_le h1 (le_of_eq h2))
    · rcases hbc with h2 | ⟨h2, h2'⟩
      · exact Or.inl (lt_of_le_of_lt (le_of_eq h1) h2)
      · exact Or.inr ⟨h1.trans h2, h1'.trans h2'⟩⟩

/-- Ascending order used by `sort_values('Amount')` on `month_data`:
by amount, ties broken by the dataframe index (stable argsort). -/
def rowAmountLe (a b : Nat × Transaction) : Prop :=
  a.2.amount < b.2.amount ∨ (a.2.amount = b.2.amount ∧ a.1 ≤ b.1)

instance : DecidableRel rowAmountLe := fun a b =>
  inferInstanceAs (Decidable (a.2.amount < b.2.amount ∨ (a.2.amount = b.2.amount ∧ a.1 ≤ b.1)))

instance : IsTotal (Nat × Transaction) rowAmountLe :=
  ⟨fun a b => by
    unfold rowAmountLe
    rcases lt_trichotomy a.2.amount b.2.amount with h | h | h
    · exact Or.inl (Or.inl h)
    · rcases le_total a.1 b.1 with hc | hc
      · exact Or.inl (Or.inr ⟨h, hc⟩)
      · exact Or.inr (Or.inr ⟨h.symm, hc⟩)
    · exact Or.inr (Or.inl h)⟩

instance : IsTrans (Nat × Transaction) rowAmountLe :=
  ⟨fun a b c hab hbc => by
    unfold rowAmountLe at hab hbc ⊢
    rcases hab with h1 | ⟨h1, h1'⟩
    · rcases hbc with h2 | ⟨h2, _⟩
      · exact Or.inl (h1.trans h2)
      · exact Or.inl (lt_of_lt_of_le h1 (le_of_eq h2))
    · rcases hbc with h2 | ⟨h2, h2'⟩
      · exact Or.inl (lt_of_le_of_lt (le_of_eq h1) h2)
      · exact Or.inr ⟨h1.trans h2, h1'.trans h2'⟩⟩

/-- `PersonalFinanceTracker.get_expenses_by_category` (lines 73–75):
`groupby('Category')['Amount'].sum().sort_values(ascending=False)`; the
descending sort is the reversal of the ascending argsort order. -/
def get_expenses_by_category (t : Tracker) : List (String × ℚ) :=
  (List.insertionSort catSeriesLe (groupbyCategorySum t.rows)).reverse

/-- `PersonalFinanceTracker.get_expenses_by_month` (lines 77–81).  Line 79
assigns the derived `Month` column onto `self.df`, so the call returns the
updated tracker state alongside the monthly series
`groupby('Month')['Amount'].sum()` (group keys ascending). -/
def get_expenses_by_month (t : Tracker) : Tracker × List (Nat × ℚ) :=
  ({ t with hasMonthColumn := true },
   (monthKeys t.rows).map (fun m =>
     (m, sumAmounts (t.rows.filter (fun tx => tx.date.monthKey == m)))))

/-- `PersonalFinanceTracker.get_category_expenses_by_month` (lines 83–91).
Line 85 assigns the `Month` column onto `self.df`; the pivot table has one
row per month present and one column per category present (both ascending,
as pandas sorts pivot axes), each cell the sum over that (month, category)
pair, absent pairs zero-filled by `fillna(0)` (an empty sum is `0`). -/
def get_category_expenses_by_month (t : Tracker) :
    Tracker × List (Nat × List (String × ℚ)) :=
  ({ t with hasMonthColumn := true },
   (monthKeys t.rows).map (fun m =>
     (m, (categoryKeys t.rows).map (fun c =>
       (c, sumAmounts (t.rows.filter
             (fun tx => tx.date.monthKey == m && tx.category == c)))))))

/-- `month_data` in `generate_monthly_report` (lines 156–157): the rows of
the requested month, each paired with its dataframe index (which equals the
append position, as every concat uses `ignore_index=True`). -/
def month_data (l : List Transaction) (m : Nat) : List (Nat × Transaction) :=
  (l.enum).filter (fun p => p.2.date.monthKey == m)

/-- `top_expenses` in `generate_monthly_report` (line 174):
`month_data.sort_values('Amount', ascending=False).head(5)` — the reversal
of the ascending argsort order, truncated to the first five rows. -/
def top_expenses (l : List Transaction) (m : Nat) : List (Nat × Transaction) :=
  ((List.insertionSort rowAmountLe (month_data l m)).reverse).take 5

/-- Descending-by-amount comparison, ties allowed either way.  Used only by
`top_expenses_claimed` below. -/
def amountGe (a b : Nat × Transaction) : Prop := b.2.amount ≤ a.2.amount

instance : DecidableRel amountGe := fun a b =>
  inferInstanceAs (Decidable (b.2.amount ≤ a.2.amount))

/-- The top-5 selection the spec's words describe: the month's rows sorted
by amount descending, first five, *ties kept in original ledger order* —
i.e. a stable descending sort.  Written from the spec, to be compared with
`top_expenses`, which embeds the source. -/
def top_expenses_claimed (l : List Transaction) (m : Nat) : List (Nat × Transaction) :=
  (List.insertionSort amountGe (month_data l m)).take 5

/-- Strict descending order on indexed rows: larger amount first, and among
equal amounts the row with the *larger* dataframe index first (i.e. ties in
reverse ledger order).  This is the order `top_expenses` actually produces. -/
def rowAmountGtStrict (a b : Nat × Transaction) : Prop :=
  b.2.amount < a.2.amount ∨ (a.2.amount = b.2.amount ∧ b.1 < a.1)

/-- A reachable tracker holding one transaction with a negative amount:
the state after `add_expense(-5, 'Food', 'negative')` from a fresh start. -/
def negTracker : Tracker :=
  (add_expense initTracker (AmountInput.parseable (-5)) "Food" "negative" none
    ⟨2024, 1, 1⟩).tracker

/-- Two January-2024 rows with equal amounts, distinct descriptions. -/
def tieRows : List Transaction :=
  [⟨⟨2024, 1, 5⟩, 50, "Food", "a"⟩, ⟨⟨2024, 1, 6⟩, 50, "Food", "b"⟩]

/-- The first components of a keyed map are the keys themselves. -/
theorem map_fst_keyed {κ ρ : Type} (keys : List κ) (f : κ → ρ) :
    (keys.map (fun k => (k, f k))).map Prod.fst = keys := by
  induction keys with
  | nil => rfl
  | cons k ks ih => simp only [List.map_cons, ih]

/-- Every entry of a keyed map carries the value of its own key. -/
theorem snd_of_mem_keyed {κ ρ : Type} {keys : List κ} {f : κ → ρ} {p : κ × ρ}
    (hp : p ∈ keys.map (fun k => (k, f k))) : p.2 = f p.1 := by
  obtain ⟨k, _, rfl⟩ := List.mem_map.mp hp
  rfl

/-- The second components of a keyed map are the values of the keys. -/
theorem map_snd_keyed {κ ρ : Type} (keys : List κ) (f : κ → ρ) :
    (keys.map (fun k => (k, f k))).map Prod.snd = keys.map f := by
  induction keys with
  | nil => rfl
  | cons k ks ih => simp only [List.map_cons, ih]

/-- Splitting a pointwise sum of two rational-valued maps. -/
theorem sumq_map_add {α : Type} (l : List α) (f g : α → ℚ) :
    (l.map (fun a => f a + g a)).sum = (l.map f).sum + (l.map g).sum := by
  induction l with
  | nil => simp
  | cons x xs ih =>
    simp only [List.map_cons, List.sum_cons, ih]
    ring

theorem sumq_ite_not_mem (cats : List String) (x : String) (A : ℚ) (hx : x ∉ cats) :
    (cats.map (fun c => if x = c then A else 0)).sum = 0 := by
  induction cats with
  | nil => simp
  | cons c cs ih =>
    have hxc : ¬ x = c := fun h => hx (h ▸ List.mem_cons_self c cs)
    have hxcs : x ∉ cs := fun h => hx (List.mem_cons_of_mem c h)
    simp only [List.map_cons, List.sum_cons, if_neg hxc, ih hxcs, add_zero]

theorem sumq_ite_mem (cats : List String) (x : String) (A : ℚ) (hN : cats.Nodup)
    (hx : x ∈ cats) :
    (cats.map (fun c => if x = c then A else 0)).sum = A := by
  induction cats with
  | nil => cases hx
  | cons c cs ih =>
    rcases List.mem_cons.mp hx with rfl | hx'
    · have hns : x ∉ cs := (List.nodup_cons.mp hN).1
      simp [sumq_ite_not_mem cs x A hns]
    · have hxc : ¬ x = c := fun h => (List.nodup_cons.mp hN).1 (h ▸ hx')
      simp only [List.map_cons, List.sum_cons, if_neg hxc,
        ih (List.nodup_cons.mp hN).2 hx', zero_add]

/-- Summing rows category by category over a duplicate-free list of
categories covering every row partitions the rows, recovering the total. -/
theorem sum_filter_partition (cats : List String) (hN : cats.Nodup)
    (s : List Transaction) (hs : ∀ tx ∈ s, tx.category ∈ cats) :
    (cats.map (fun c => sumAmounts (s.filter (fun tx => tx.category == c)))).sum
      = sumAmounts s := by
  induction s with
  | nil => simp [sumAmounts]
  | cons tx s ih =>
    have htx := hs tx (List.mem_cons_self tx s)
    have hs' : ∀ u ∈ s, u.category ∈ cats := fun u hu => hs u (List.mem_cons_of_mem tx hu)
    have hstep : ∀ c ∈ cats,
        sumAmounts ((tx :: s).filter (fun u => u.category == c))
          = (if tx.category = c then tx.amount else 0)
              + sumAmounts (s.filter (fun u => u.category == c)) := by
      intro c _
      by_cases hc : tx.category = c
      · simp [List.filter_cons, hc, sumAmounts]
      · simp [List.filter_cons, hc, sumAmounts]
    rw [List.map_congr_left hstep, sumq_map_add,
      sumq_ite_mem cats tx.category tx.amount hN htx, ih hs']
    simp [sumAmounts]

/-- `categoryKeys` is a permutation of the distinct categories present. -/
theorem categoryKeys_perm (l : List Transaction) :
    (categoryKeys l).Perm ((l.map Transaction.category).dedup) :=
  List.perm_insertionSort _ _

theorem categoryKeys_nodup (l : List Transaction) : (categoryKeys l).Nodup :=
  (List.perm_insertionSort _ _).nodup_iff.mpr (List.nodup_dedup _)

theorem mem_categoryKeys {l : List Transaction} {c : String} :
    c ∈ categoryKeys l ↔ c ∈ l.map Transaction.category := by
  unfold categoryKeys
  rw [List.mem_insertionSort, List.mem_dedup]

/-- `monthKeys` is a permutation of the distinct month keys present. -/
theorem monthKeys_perm (l : List Transaction) :
    (monthKeys l).Perm ((l.map (fun tx => tx.date.monthKey)).dedup) :=
  List.perm_insertionSort _ _

theorem monthKeys_nodup (l : List Transaction) : (monthKeys l).Nodup :=
  (List.perm_insertionSort _ _).nodup_iff.mpr (List.nodup_dedup _)

/-- The month keys come out strictly ascending: sorted and duplicate-free. -/
theorem monthKeys_sorted_lt (l : List Transaction) :
    (monthKeys l).Pairwise (fun a b : Nat => a < b) := by
  have hs : (monthKeys l).Pairwise (fun a b : Nat => a ≤ b) :=
    List.sorted_insertionSort _ _
  have hn : (monthKeys l).Pairwise (fun a b : Nat => a ≠ b) := monthKeys_nodup l
  exact (hs.and hn).imp (fun h => lt_of_le_of_ne h.1 h.2)

/-- Claim C1 (confirmed).  `get_expenses_by_category` returns one entry per
category that occurs in at least one transaction (categories with no
transactions are absent), each mapped to the sum of the amounts of the
transactions with that category, and the entries are ordered descending by
sum. -/
theorem get_expenses_by_category_spec (t : Tracker) :
    ((get_expenses_by_category t).map Prod.fst).Perm
        ((t.rows.map Transaction.category).dedup)
    ∧ (∀ p ∈ get_expenses_by_category t,
        p.2 = sumAmounts (t.rows.filter (fun tx => tx.category == p.1)))
    ∧ (get_expenses_by_category t).Pairwise (fun a b => b.2 ≤ a.2) := by
  have hgb : groupbyCategorySum t.rows
      = (categoryKeys t.rows).map (fun c =>
          (c, sumAmounts (t.rows.filter (fun tx => tx.category == c)))) := rfl
  refine ⟨?_, ?_, ?_⟩
  · have h1 : (get_expenses_by_category t).map Prod.fst
        = ((List.insertionSort catSeriesLe (groupbyCategorySum t.rows)).map Prod.fst).reverse := by
      unfold get_expenses_by_category
      rw [List.map_reverse]
    rw [h1]
    refine (List.reverse_perm _).trans ?_
    refine ((List.perm_insertionSort catSeriesLe _).map Prod.fst).trans ?_
    rw [hgb, map_fst_keyed]
    exact categoryKeys_perm t.rows
  · intro p hp
    unfold get_expenses_by_category at hp
    have hp' : p ∈ groupbyCategorySum t.rows :=
      (List.mem_insertionSort catSeriesLe).mp (List.mem_reverse.mp hp)
    rw [hgb] at hp'
    exact snd_of_mem_keyed hp'
  · unfold get_expenses_by_category
    rw [List.pairwise_reverse]
    refine List.Pairwise.imp ?_ (List.sorted_insertionSort catSeriesLe _)
    intro a b h
    rcases h with h | ⟨h, _⟩
    · exact le_of_lt h
    · exact le_of_eq h

/-- Claim C8 (confirmed).  `get_expenses_by_month` returns one entry per
calendar month (`strftime('%Y-%m')` key) occurring among the transactions'
dates, each mapped to the sum of that month's amounts, and its iteration
order is strictly ascending by month key, whatever order the transactions
were inserted in. -/
theorem get_expenses_by_month_spec (t : Tracker) :
    ((get_expenses_by_month t).2.map Prod.fst).Perm
        ((t.rows.map (fun tx => tx.date.monthKey)).dedup)
    ∧ (∀ p ∈ (get_expenses_by_month t).2,
        p.2 = sumAmounts (t.rows.filter (fun tx => tx.date.monthKey == p.1)))
    ∧ ((get_expenses_by_month t).2.map Prod.fst).Pairwise (fun a b : Nat => a < b) := by
  have h2 : (get_expenses_by_month t).2
      = (monthKeys t.rows).map (fun m =>
          (m, sumAmounts (t.rows.filter (fun tx => tx.date.monthKey == m)))) := rfl
  refine ⟨?_, ?_, ?_⟩
  · rw [h2, map_fst_keyed]
    exact monthKeys_perm t.rows
  · intro p hp
    rw [h2] at hp
    exact snd_of_mem_keyed hp
  · rw [h2, map_fst_keyed]
    exact monthKeys_sorted_lt t.rows

/-- Claim C4 (confirmed).  In the pivot table of
`get_category_expenses_by_month`, every month row's per-category values sum
to exactly that month's entry in `get_expenses_by_month`: collapsing each
pivot row to its sum reproduces the monthly series. -/
theorem get_category_expenses_by_month_row_sums (t : Tracker) :
    (get_category_expenses_by_month t).2.map (fun p => (p.1, (p.2.map Prod.snd).sum))
      = (get_expenses_by_month t).2 := by
  have hpivot : (get_category_expenses_by_month t).2
      = (monthKeys t.rows).map (fun m =>
          (m, (categoryKeys t.rows).map (fun c =>
            (c, sumAmounts (t.rows.filter
                  (fun tx => tx.date.monthKey == m && tx.category == c)))))) := rfl
  have hmonth : (get_expenses_by_month t).2
      = (monthKeys t.rows).map (fun m =>
          (m, sumAmounts (t.rows.filter (fun tx => tx.date.monthKey == m)))) := rfl
  rw [hpivot, hmonth, List.map_map]
  apply List.map_congr_left
  intro m _
  simp only [Function.comp_apply, Prod.mk.injEq, true_and, map_snd_keyed]
  have hsplit : ∀ c ∈ categoryKeys t.rows,
      sumAmounts (t.rows.filter (fun tx => tx.date.monthKey == m && tx.category == c))
        = sumAmounts ((t.rows.filter (fun tx => tx.date.monthKey == m)).filter
            (fun tx => tx.category == c)) := by
    intro c _
    rw [List.filter_filter]
    congr 1
    apply List.filter_congr
    intro tx _
    rw [Bool.and_comm]
  rw [List.map_congr_left hsplit]
  refine sum_filter_partition (categoryKeys t.rows) (categoryKeys_nodup t.rows) _ ?_
  intro tx htx
  refine mem_categoryKeys.mpr ?_
  exact List.mem_map_of_mem Transaction.category (List.mem_filter.mp htx).1

/-- Claim C2, counterexample.  `get_expenses_by_month` is not a pure read:
called on the fresh tracker it hands back a state whose schema now carries
the derived `Month` column (line 79 assigns onto `self.df`), so the state
differs from the one it was called on. -/
theorem get_expenses_by_month_mutates :
    (get_expenses_by_month initTracker).1 ≠ initTracker := by
  decide

/-- Claim C2, amended.  All Aggregator operations leave the transactions —
their fields and their order — unchanged, and the results seen by later
aggregations are unchanged as well; but `get_expenses_by_month` and
`get_category_expenses_by_month` additionally install the derived `Month`
column on the frame (`get_expenses_by_category` alone touches nothing: it
is a function of the state, returning no modified state). -/
theorem aggregator_reads_preserve_rows (t : Tracker) :
    (get_expenses_by_month t).1.rows = t.rows
    ∧ (get_category_expenses_by_month t).1.rows = t.rows
    ∧ (get_expenses_by_month t).1.hasMonthColumn = true
    ∧ (get_category_expenses_by_month t).1.hasMonthColumn = true
    ∧ get_expenses_by_category ((get_expenses_by_month t).1) = get_expenses_by_category t
    ∧ (get_expenses_by_month ((get_category_expenses_by_month t).1)).2
        = (get_expenses_by_month t).2 :=
  ⟨rfl, rfl, rfl, rfl, rfl, rfl⟩

/-- Claim C3 (confirmed).  For every tracker state and candidate whose
category is not in the fixed set, `add_expense` reports the invalid
category and returns `False` (lines 47–49), leaving the state unchanged:
nothing is appended and `save_data` does not run. -/
theorem add_expense_invalid_category (t : Tracker) (a : AmountInput) (c d : String)
    (dt : Option DateInput) (today : Date) (h : c ∉ categoriesList) :
    add_expense t a c d dt today = ⟨t, PyResult.retFalse, false⟩ := by
  unfold add_expense
  simp [h]

/-- Claim C3, witness: the category `"Vacation"` is rejected and the fresh
tracker is left untouched. -/
theorem add_expense_invalid_category_witness :
    add_expense initTracker (AmountInput.parseable 100) "Vacation" "trip" none ⟨2024, 5, 1⟩
      = ⟨initTracker, PyResult.retFalse, false⟩ :=
  add_expense_invalid_category initTracker (AmountInput.parseable 100) "Vacation" "trip"
    none ⟨2024, 5, 1⟩ (by decide)

/-- Claim C6, counterexample.  On an unparseable amount `add_expense` does
not fail with a recoverable, reported `InvalidAmount`: `float(amount)` at
line 54 raises an uncaught `ValueError` — the call crashes (it neither
returns `False` as it does for a bad category, nor appends). -/
theorem add_expense_unparseable_cex :
    add_expense initTracker AmountInput.unparseable "Food" "x" none ⟨2024, 1, 1⟩
      = ⟨initTracker, PyResult.valueError, false⟩ := by
  decide

/-- Claim C6, amended.  For every tracker and candidate with a valid
category whose amount is unparseable, `add_expense` raises an uncaught
`ValueError` (rather than reporting a recoverable `InvalidAmount`); the
ledger is unchanged, nothing is appended and nothing is persisted. -/
theorem add_expense_unparseable_spec (t : Tracker) (c d : String) (dt : Option DateInput)
    (today : Date) (h : c ∈ categoriesList) :
    add_expense t AmountInput.unparseable c d dt today
      = ⟨t, PyResult.valueError, false⟩ := by
  unfold add_expense
  simp [h]

/-- Claim C6, witness: an unparseable amount with category `"Food"` raises
and leaves the fresh tracker untouched. -/
theorem add_expense_unparseable_spec_witness :
    add_expense initTracker AmountInput.unparseable "Food" "oops" none ⟨2024, 1, 3⟩
      = ⟨initTracker, PyResult.valueError, false⟩ :=
  add_expense_unparseable_spec initTracker "Food" "oops" none ⟨2024, 1, 3⟩ (by decide)

/-- Claim C10 (confirmed).  For every tracker and candidate whose category
is in the fixed set and whose amount parses, `add_expense` returns `True`,
persists, and the new state is exactly the old rows with the one new
transaction — carrying the given amount, category and description —
appended at the end (line 64), so every pre-existing row keeps its
position. -/
theorem add_expense_valid (t : Tracker) (q : ℚ) (c d : String) (dt : Option DateInput)
    (today : Date) (h : c ∈ categoriesList) :
    add_expense t (AmountInput.parseable q) c d dt today
      = ⟨{ t with rows := t.rows ++ [⟨resolveDate dt today, q, c, d⟩] },
         PyResult.retTrue, true⟩ := by
  unfold add_expense
  simp [h]

/-- Claim C10, witness: a valid expense is appended to the fresh tracker. -/
theorem add_expense_valid_witness :
    add_expense initTracker (AmountInput.parseable 10) "Food" "lunch" none ⟨2024, 1, 2⟩
      = ⟨⟨[⟨⟨2024, 1, 2⟩, 10, "Food", "lunch"⟩], false⟩, PyResult.retTrue, true⟩ :=
  add_expense_valid initTracker 10 "Food" "lunch" none ⟨2024, 1, 2⟩ (by decide)

/-- Claim C5, counterexample.  The amount is never validated: `add_expense`
accepts a negative amount (nothing in lines 36–67 checks sign or
finiteness), so a reachable ledger violates the claimed invariant that
every amount is non-negative. -/
theorem reachable_negative_amount :
    Reachable negTracker ∧ ¬ (∀ tx ∈ negTracker.rows, 0 ≤ tx.amount) := by
  constructor
  · exact Reachable.step initTracker (AmountInput.parseable (-5)) "Food" "negative" none
      ⟨2024, 1, 1⟩ Reachable.init
  · intro hall
    have h := hall ⟨⟨2024, 1, 1⟩, -5, "Food", "negative"⟩ (by decide)
    norm_num at h

/-- Claim C5, amended.  Every tracker state reachable from a fresh start by
`add_expense` calls satisfies the category half of the invariant: each
stored transaction's category belongs to the fixed set.  (The amount half
fails — see the counterexample — since amounts are accepted unchecked.) -/
theorem reachable_category_invariant (t : Tracker) (h : Reachable t) :
    ∀ tx ∈ t.rows, tx.category ∈ categoriesList := by
  induction h with
  | init => intro tx htx; cases htx
  | step t a c d dt today ht ih =>
    intro tx htx
    unfold add_expense at htx
    by_cases hc : c ∈ categoriesList
    · cases a with
      | parseable q =>
        simp only [hc, if_true] at htx
        rcases List.mem_append.mp htx with htx | htx
        · exact ih tx htx
        · rcases List.mem_singleton.mp htx with rfl
          exact hc
      | unparseable =>
        simp only [hc, if_true] at htx
        exact ih tx htx
    · simp only [hc, if_false] at htx
      exact ih tx htx

/-- Claim C5, witness: the amended invariant applied to the concrete
reachable state holding one `"Food"` transaction and to that transaction. -/
theorem reachable_category_invariant_witness :
    (Transaction.mk ⟨2024, 1, 2⟩ 10 "Food" "lunch").category ∈ categoriesList :=
  reachable_category_invariant
    (add_expense initTracker (AmountInput.parseable 10) "Food" "lunch" none
      ⟨2024, 1, 2⟩).tracker
    (Reachable.step initTracker (AmountInput.parseable 10) "Food" "lunch" none
      ⟨2024, 1, 2⟩ Reachable.init)
    (Transaction.mk ⟨2024, 1, 2⟩ 10 "Food" "lunch")
    (by decide)

/-- Every index in `enumFrom n l` is at least `n`. -/
theorem fst_ge_of_mem_enumFrom {α : Type} : ∀ (n : Nat) (l : List α) (p : Nat × α),
    p ∈ List.enumFrom n l → n ≤ p.1 := by
  intro n l
  induction l generalizing n with
  | nil => intro p hp; cases hp
  | cons x xs ih =>
    intro p hp
    rcases List.mem_cons.mp hp with rfl | hp'
    · exact le_refl n
    · exact Nat.le_of_succ_le (ih (n + 1) p hp')

/-- The indices attached by `enumFrom` are strictly increasing. -/
theorem pairwise_fst_lt_enumFrom {α : Type} : ∀ (n : Nat) (l : List α),
    (List.enumFrom n l).Pairwise (fun a b => a.1 < b.1) := by
  intro n l
  induction l generalizing n with
  | nil => exact List.Pairwise.nil
  | cons x xs ih =>
    refine List.Pairwise.cons ?_ (ih (n + 1))
    intro p hp
    exact Nat.lt_of_succ_le (fst_ge_of_mem_enumFrom (n + 1) xs p hp)

/-- The dataframe indices carried through `month_data` are strictly
increasing (filtering preserves the order of `enum`). -/
theorem pairwise_fst_lt_month_data (l : List Transaction) (m : Nat) :
    (month_data l m).Pairwise (fun a b => a.1 < b.1) := by
  unfold month_data
  exact List.Pairwise.sublist (List.filter_sublist _) (pairwise_fst_lt_enumFrom 0 l)

/-- Claim C7, counterexample.  With two equal-amount transactions in one
month, the code's top-5 differs from the claim's: `sort_values(ascending=
False)` reverses the stable ascending argsort, so the two 50-amount rows
come out in reverse ledger order, not in their original ledger order. -/
theorem top_expenses_ties_cex :
    top_expenses tieRows 202401 ≠ top_expenses_claimed tieRows 202401 := by
  decide

/-- Claim C7, amended.  The report's top-5 equals the month's transactions
sorted by amount descending, truncated to the first five — but transactions
of equal amount appear in *reverse* of their original ledger order.
Formally: the top-5 list is the 5-entry prefix of the (unique) arrangement
of the month's rows that is pairwise strictly descending in the
lexicographic key (amount, dataframe index). -/
theorem top_expenses_amended (l : List Transaction) (m : Nat) :
    (top_expenses l m).length = min 5 (month_data l m).length
    ∧ ∃ rest, ((top_expenses l m) ++ rest).Perm (month_data l m)
        ∧ ((top_expenses l m) ++ rest).Pairwise rowAmountGtStrict := by
  set L := (List.insertionSort rowAmountLe (month_data l m)).reverse with hL
  have hLperm : L.Perm (month_data l m) :=
    (List.reverse_perm _).trans (List.perm_insertionSort _ _)
  have hLlen : L.length = (month_data l m).length := hLperm.length_eq
  have htop : top_expenses l m = L.take 5 := rfl
  have hpw : L.Pairwise rowAmountGtStrict := by
    have h1 : L.Pairwise (fun a b => rowAmountLe b a) := by
      rw [hL, List.pairwise_reverse]
      exact List.sorted_insertionSort rowAmountLe _
    have h2 : L.Pairwise (fun a b => a.1 ≠ b.1) := by
      have hmd : (month_data l m).Pairwise (fun a b => a.1 < b.1) :=
        pairwise_fst_lt_month_data l m
      have hnd : ((month_data l m).map Prod.fst).Nodup :=
        List.pairwise_map.mpr (hmd.imp (fun h => Nat.ne_of_lt h))
      have hndL : (L.map Prod.fst).Nodup := ((hLperm.map Prod.fst).nodup_iff).mpr hnd
      exact List.pairwise_map.mp hndL
    refine (h1.and h2).imp ?_
    intro a b h
    rcases h.1 with hlt | ⟨heq, hle⟩
    · exact Or.inl hlt
    · exact Or.inr ⟨heq.symm, lt_of_le_of_ne hle (fun hh => h.2 hh.symm)⟩
  refine ⟨?_, L.drop 5, ?_, ?_⟩
  · rw [htop, List.length_take, hLlen]
  · rw [htop, List.take_append_drop]
    exact hLperm
  · rw [htop, List.take_append_drop]
    exact hpw

end FinanceTracker
